import Mathlib

/-!
Verification of the monty interpreter core against its specification.

This file gives a shallow embedding, in Lean 4, of the data model and the
operations of the monty sandboxed interpreter (a reference-counted heap of
boxed guest values, the tree-walking evaluator fragment for boolean
operators, the list operations, the resource tracker, the namespace stack
with its external-return buffer, and the frame-exit plumbing for external
function calls), together with theorems settling the specification claims.

Source files embedded (the repository mixes several iterations of the same
crate; each definition below names the file it is translated from):
  * src/src/heap.rs            - Heap, HeapObject, HeapData, allocate,
                                 inc_ref, dec_ref, take/restore, with_two
  * src/src/values/list.rs     - List payload ops: py_add, py_iadd,
                                 repr_sequence
  * src/src/values/dict.rs     - Dict payload ops: py_repr
  * src/src/evaluate.rs        - eval_and / eval_or evaluator fragment
  * src/src/resource.rs        - ResourceError, ResourceLimits, LimitedTracker
  * src/crates/monty/src/namespace.rs - Namespaces, ext-return buffer,
                                 new_namespace
  * src/crates/monty/src/callable.rs  - Callable::call, ExtFunction branch
  * src/crates/monty/src/function.rs  - map_result
  * src/crates/monty/src/snapshot.rs  - FrameExit
  * src/crates/monty-python/src/limits.rs - PyResourceLimits defaults

Rust panics (`expect`/`panic!` in the source) are modelled by `Option`
results (`none` = panic); fallible Rust `Result` is modelled by `Except`.
Machine hashing (std `DefaultHasher`, which is outside this repository) is
modelled by concrete deterministic stand-in functions; no claim below
depends on the hash bit-mix, only on which payloads hash to `some`.
-/

namespace Monty

/-- Guest value: immediate variants plus a reference into the heap.

Modelled from the spec: the Value/Object enum itself lives in
`src/src/object.rs` / `value.rs`, which are not part of the provided
sources; the spec (section 3.1) lists the immediate variants.  Only the
variants exercised by the claims are included.  The `src/src` iteration
names this type `Object`, the `src/crates/monty` iteration names it
`Value`. -/
inductive Value where
  | none
  | bool (b : Bool)
  | int (i : Int)
  | ref (id : Nat)
  | extFunction (fId : Nat)
  | undefined
  deriving Repr, DecidableEq

/-- Payload of a heap slot (HeapData in src/src/heap.rs).  The dict payload
mirrors `IndexMap<u64, Vec<(Object, Object)>>` as an association list from
hash to collision bucket. -/
inductive HeapData where
  | object (o : Value)
  | str (s : String)
  | bytes (b : List Nat)
  | list (l : List Value)
  | tuple (t : List Value)
  | dict (d : List (Nat × List (Value × Value)))
  deriving Repr, DecidableEq

/-- Deterministic stand-in for hashing a string with std DefaultHasher
(foreign code, outside the repository).  Claims depend only on determinism,
never on the bit-mix. -/
def hashStr (s : String) : Nat :=
  s.toList.foldl (fun a c => a * 31 + c.toNat) 7

/-- Deterministic stand-in for hashing a byte slice with std DefaultHasher. -/
def hashBytes (b : List Nat) : Nat :=
  b.foldl (fun a n => a * 31 + n) 11

/-- Deterministic stand-in for feeding a sequence of element hashes into one
DefaultHasher, as `HeapData::compute_hash_if_immutable` does for tuples. -/
def hashCombine (l : List Nat) : Nat :=
  l.foldl (fun a n => a * 31 + n) 13

/-- Deterministic stand-in for hashing an immediate integer value. -/
def hashInt (i : Int) : Nat :=
  2 * i.natAbs + (if i < 0 then 1 else 0)

/-- A single heap slot entry (HeapObject in src/src/heap.rs): refcount,
payload (temporarily absent while borrowed via take/restore), and the hash
cached at allocation time. -/
structure HeapObject where
  refcount : Nat
  data : Option HeapData
  cachedHash : Option Nat
  deriving Repr, DecidableEq

/-- The reference-counted slot arena (Heap in src/src/heap.rs):
`objects: Vec<Option<HeapObject>>`; a `none` slot is a vacated (freed)
slot.  The heap never removes entries during a run; `clear` empties it
between runs. -/
structure Heap where
  objects : List (Option HeapObject)
  deriving Repr, DecidableEq

/-- Hash of a guest value, `Object::py_hash_u64`.

Modelled from the spec: `py_hash_u64` lives in the absent
`src/src/object.rs`; the spec (value protocol, section 4.2) states hash is
`Some(u64)` for immutable values, using `cached_hash` for heap references,
else `None`.  A reference to a missing or vacated slot (a panic in the
source) is folded into `none` here. -/
def pyHashU64 (h : Heap) : Value → Option Nat
  | .none => some 0
  | .bool b => some (cond b 1 2)
  | .int i => some (hashInt i)
  | .ref id =>
    match h.objects[id]? with
    | some (some entry) => entry.cachedHash
    | _ => Option.none
  | .extFunction fId => some (1000 + fId)
  | .undefined => Option.none

/-- The tuple-element loop of `compute_hash_if_immutable`: hash each
element in order; a single unhashable element makes the whole tuple
unhashable (`return None` in the source). -/
def tupleElemHashes (h : Heap) : List Value → Option (List Nat)
  | [] => some []
  | v :: rest =>
    match pyHashU64 h v with
    | some hv => (tupleElemHashes h rest).map (hv :: ·)
    | Option.none => Option.none

/-- `HeapData::compute_hash_if_immutable` (src/src/heap.rs lines 43-69):
`some` hash for immutable payloads (Str, Bytes, Tuple of hashables), `none`
for mutable payloads (List, Dict) and boxed objects. -/
def computeHashIfImmutable (h : Heap) : HeapData → Option Nat
  | .str s => some (hashStr s)
  | .bytes b => some (hashBytes b)
  | .tuple t => (tupleElemHashes h t).map hashCombine
  | .list _ => Option.none
  | .dict _ => Option.none
  | .object _ => Option.none

/-- `Heap::allocate` (src/src/heap.rs lines 311-320): precompute the cached
hash, append a fresh slot with refcount 1, return its index (the current
length of the slot vector). -/
def Heap.allocate (h : Heap) (d : HeapData) : Heap × Nat :=
  let cachedHash := computeHashIfImmutable h d
  let id := h.objects.length
  (⟨h.objects ++ [some ⟨1, some d, cachedHash⟩]⟩, id)

/-- `Heap::inc_ref` (src/src/heap.rs): bump the refcount of a live slot;
`none` models the panic on a missing or freed slot. -/
def Heap.inc_ref (h : Heap) (id : Nat) : Option Heap :=
  match h.objects[id]? with
  | some (some entry) =>
    some ⟨h.objects.set id (some { entry with refcount := entry.refcount + 1 })⟩
  | _ => Option.none

/-- Owned child references of a payload, `py_dec_ref_ids` of each variant
(src/src/values/.rs): lists and tuples push element refs in order, dicts
push key then value refs bucket by bucket, strings and bytes own nothing.
The boxed-object case follows the spec (owned refs are enumerated). -/
def childIds : HeapData → List Nat
  | .object o => match o with | .ref id => [id] | _ => []
  | .str _ => []
  | .bytes _ => []
  | .list l => l.filterMap fun v => match v with | .ref id => some id | _ => Option.none
  | .tuple t => t.filterMap fun v => match v with | .ref id => some id | _ => Option.none
  | .dict d =>
    d.flatMap fun bucket =>
      bucket.2.flatMap fun kv =>
        (match kv.1 with | .ref id => [id] | _ => []) ++
        (match kv.2 with | .ref id => [id] | _ => [])

/-- Termination measure helper for `dec_ref`: weight of one slot. -/
def slotWeight : Option HeapObject → Nat
  | some e => 1 + (match e.data with | some d => (childIds d).length | Option.none => 0)
  | Option.none => 0

/-- Termination measure helper for `dec_ref`: total weight of the heap. -/
def Heap.weight (h : Heap) : Nat :=
  (h.objects.map slotWeight).sum

theorem map_sum_set {α : Type} (f : α → Nat) :
    ∀ (l : List α) (i : Nat) (x y : α), l[i]? = some y →
      ((l.set i x).map f).sum + f y = (l.map f).sum + f x := by
  intro l
  induction l with
  | nil => intro i x y hy; simp at hy
  | cons a t ih =>
    intro i x y hy
    cases i with
    | zero =>
      simp at hy
      subst hy
      simp [List.set, List.map, List.sum_cons]
      omega
    | succ n =>
      simp only [List.getElem?_cons_succ] at hy
      have h2 := ih n x y hy
      simp only [List.set, List.map, List.sum_cons]
      omega

/-- `Heap::dec_ref` work loop (src/src/heap.rs lines 340-357): pop an id
off the stack; if its refcount exceeds 1 just decrement, otherwise vacate
the slot and push the children of its payload; `none` models the panic on
a missing or already-freed id. -/
def decRefLoop : Heap → List Nat → Option Heap
  | h, [] => some h
  | h, id :: rest =>
    match hslot : h.objects[id]? with
    | some (some entry) =>
      if entry.refcount > 1 then
        decRefLoop ⟨h.objects.set id (some { entry with refcount := entry.refcount - 1 })⟩ rest
      else
        decRefLoop ⟨h.objects.set id Option.none⟩
          ((match entry.data with | some d => (childIds d).reverse | Option.none => []) ++ rest)
    | _ => Option.none
  termination_by h stack => h.weight + stack.length
  decreasing_by
  · simp only [Heap.weight]
    have hw := map_sum_set slotWeight h.objects id
      (some { entry with refcount := entry.refcount - 1 }) (some entry) hslot
    simp only [slotWeight] at hw
    simp only [List.length_cons]
    omega
  · simp only [Heap.weight]
    have hw := map_sum_set slotWeight h.objects id Option.none (some entry) hslot
    simp only [slotWeight] at hw
    cases hdata : entry.data with
    | none =>
      simp only [hdata] at hw
      simp only [List.length_append, List.length_cons, List.length_nil, List.length_reverse]
      omega
    | some d =>
      simp only [hdata] at hw
      simp only [List.length_append, List.length_cons, List.length_reverse]
      omega

/-- `Heap::dec_ref` (src/src/heap.rs lines 340-357): iterative decrement
and free, starting from a single id. -/
def Heap.dec_ref (h : Heap) (id : Nat) : Option Heap :=
  decRefLoop h [id]

/-- `Heap::get_cached_hash` (src/src/heap.rs): cached hash of a live slot;
outer `none` models the panic on a missing or freed slot. -/
def Heap.get_cached_hash (h : Heap) (id : Nat) : Option (Option Nat) :=
  match h.objects[id]? with
  | some (some entry) => some entry.cachedHash
  | _ => Option.none

/-- The `take_data!` macro of src/src/heap.rs: take the payload out of a
live slot, leaving refcount and cached hash in place; `none` models the
three panics (slot missing, object freed, data already borrowed). -/
def Heap.take_data (h : Heap) (id : Nat) : Option (HeapData × Heap) :=
  match h.objects[id]? with
  | some (some entry) =>
    match entry.data with
    | some d => some (d, ⟨h.objects.set id (some { entry with data := Option.none })⟩)
    | Option.none => Option.none
  | _ => Option.none

/-- The `restore_data!` macro of src/src/heap.rs: put a payload back into a
live slot; `none` models the panics on a missing or freed slot. -/
def Heap.restore_data (h : Heap) (id : Nat) (d : HeapData) : Option Heap :=
  match h.objects[id]? with
  | some (some entry) => some ⟨h.objects.set id (some { entry with data := some d })⟩
  | _ => Option.none

/-- `Heap::with_entry_mut` (src/src/heap.rs lines 435-447): take the
payload out, run the closure with full heap access, restore the payload. -/
def Heap.with_entry_mut {R : Type} (h : Heap) (id : Nat)
    (f : Heap → HeapData → Heap × HeapData × R) : Option (Heap × R) :=
  (h.take_data id).bind fun (d, h1) =>
    let (h2, d2, r) := f h1 d
    (h2.restore_data id d2).map fun h3 => (h3, r)

/-- `Heap::with_two` (src/src/heap.rs lines 453-477): borrow two payloads
simultaneously.  When both ids are equal the payload is taken once and
passed as both operands; otherwise both are taken and restored in reverse
order. -/
def Heap.with_two {R : Type} (h : Heap) (left right : Nat)
    (f : Heap → HeapData → HeapData → Heap × R) : Option (Heap × R) :=
  if left = right then
    (h.take_data left).bind fun (d, h1) =>
      let (h2, r) := f h1 d d
      (h2.restore_data left d).map fun h3 => (h3, r)
  else
    (h.take_data left).bind fun (ld, h1) =>
      (h1.take_data right).bind fun (rd, h2) =>
        let (h3, r) := f h2 ld rd
        (h3.restore_data right rd).bind fun h4 =>
          (h4.restore_data left ld).map fun h5 => (h5, r)

/-- `Heap::clear` (src/src/heap.rs): remove all slots between runs. -/
def Heap.clear (_h : Heap) : Heap := ⟨[]⟩

/-- `Object::clone_with_heap`: clone the tagged value, incrementing the
refcount when it is a heap reference.

Modelled from the spec and from the call sites in src/src/values/list.rs
(object.rs itself is absent): cloning is refcount-incrementing for `Ref`
and a plain copy for immediates. -/
def Value.clone_with_heap (v : Value) (h : Heap) : Option (Value × Heap) :=
  match v with
  | .ref id => (h.inc_ref id).map fun h2 => (v, h2)
  | _ => some (v, h)

/-- `Object::drop_with_heap`: release an owned value, decrementing the
refcount of a heap reference; a no-op for immediates.

Modelled from the spec and the call sites in src/src (object.rs absent). -/
def Value.drop_with_heap (v : Value) (h : Heap) : Option Heap :=
  match v with
  | .ref id => h.dec_ref id
  | _ => some h

/-- `Object::copy_for_extend` (object.rs absent, usage in
src/src/values/list.rs and dict.rs): copy the tagged value without touching
refcounts; the caller increments refcounts afterwards. -/
def Value.copy_for_extend (v : Value) : Value := v

/-- Sequential `clone_with_heap` over a vector of elements, as
`self.0.iter().map(|obj| obj.clone_with_heap(heap)).collect()` does in
src/src/values/list.rs. -/
def cloneAll (h : Heap) : List Value → Option (List Value × Heap)
  | [] => some ([], h)
  | v :: rest =>
    (v.clone_with_heap h).bind fun vh =>
      (cloneAll vh.2 rest).map fun vsh => (vh.1 :: vsh.1, vsh.2)

/-- Sequential `inc_ref` over the `Ref` elements of a vector, as the
`for obj in &items \x7b if let Object::Ref(id) = obj ... \x7d` loop in
`List::py_iadd` does. -/
def incRefAll (h : Heap) : List Value → Option Heap
  | [] => some h
  | v :: rest =>
    match v with
    | .ref id => (h.inc_ref id).bind fun h2 => incRefAll h2 rest
    | _ => incRefAll h rest

/-- `List::py_add` (src/src/values/list.rs lines 142-149): clone both
lists with proper refcounting, concatenate, allocate a fresh list, return
a reference to it. -/
def list_py_add (h : Heap) (self other : List Value) : Option (Value × Heap) :=
  (cloneAll h self).bind fun rh =>
    (cloneAll rh.2 other).map fun oh =>
      let result := rh.1 ++ oh.1
      let ha := oh.2.allocate (.list result)
      (Value.ref ha.2, ha.1)

/-- `List::py_iadd` (src/src/values/list.rs lines 151-180): in-place
extend.  A non-`Ref` right operand is returned as `Except.error` (the
caller falls back).  When the right operand is the list itself
(`Some(other_id) == self_id`), the source elements are cloned with
refcounting before extending; otherwise the other list's items are copied,
their refcounts incremented, and appended.  In both success branches the
temporary reference to `other` is dropped afterwards.  The result carries
the updated element vector of `self` and the updated heap; outer `none`
models the heap panics. -/
def list_py_iadd (h : Heap) (self : List Value) (self_id : Option Nat) (other : Value) :
    Option (Except Value (List Value × Heap)) :=
  match other with
  | .ref other_id =>
    if some other_id = self_id then
      (cloneAll h self).bind fun rh =>
        (Value.drop_with_heap (.ref other_id) rh.2).map fun h2 =>
          Except.ok (self ++ rh.1, h2)
    else
      match h.objects[other_id]? with
      | some (some entry) =>
        match entry.data with
        | some (.list items) =>
          let items2 := items.map Value.copy_for_extend
          (incRefAll h items2).bind fun h1 =>
            (Value.drop_with_heap (.ref other_id) h1).map fun h2 =>
              Except.ok (self ++ items2, h2)
        | some _ => some (Except.error other)
        | Option.none => Option.none
      | _ => Option.none
  | _ => some (Except.error other)

/-- Outcome of a fueled `repr` evaluation: a produced string, a Rust panic
(missing slot or borrowed payload), or exhaustion of the fuel bound.  The
source has no fuel parameter; `outOfFuel` for every fuel value means the
source recursion does not terminate. -/
inductive ReprResult where
  | ok (s : String)
  | fault
  | outOfFuel
  deriving Repr, DecidableEq

/-- The single-quote character. -/
def squote : Char := Char.ofNat 39

/-- The double-quote character. -/
def dquote : Char := Char.ofNat 34

/-- The `string_replace_common!` macro of src/src/values/str.rs: escape
backslash, newline, tab and carriage return. -/
def string_replace_common (s : String) : String :=
  (((s.replace "\\" "\\\\").replace "\n" "\\n").replace "\t" "\\t").replace "\r" "\\r"

/-- `string_repr` (src/src/values/str.rs lines 153-162): Python-style
quoting, double quotes when the string holds single quotes but no double
quotes, else single quotes with escaping. -/
def string_repr (s : String) : String :=
  if s.contains squote && !s.contains dquote then
    String.singleton dquote ++ string_replace_common s ++ String.singleton dquote
  else
    String.singleton squote ++
      string_replace_common (s.replace (String.singleton squote)
        ("\\" ++ String.singleton squote)) ++
      String.singleton squote

/-- Repr of a bytes payload.  Modelled from the spec: the bytes value file
is absent from the sources; no claim depends on this string. -/
def bytes_repr (b : List Nat) : String :=
  "b" ++ String.singleton squote ++ String.intercalate "," (b.map toString) ++
    String.singleton squote

mutual

/-- Fueled `repr` of a guest value, the composition of `Object::py_repr`
dispatch (object.rs absent; dispatch on the heap payload is pinned by
`repr_sequence` in src/src/values/list.rs calling `item.py_repr(heap)` on
each element) with the payload reprs of src/src/values/.rs.  The source
recursion carries no seen-set and no depth bound; the fuel parameter is
the embedding's device, decremented once per heap dereference. -/
def value_py_repr (fuel : Nat) (h : Heap) (v : Value) : ReprResult :=
  match fuel with
  | 0 => ReprResult.outOfFuel
  | fuel1 + 1 =>
    match v with
    | .none => ReprResult.ok "None"
    | .bool b => ReprResult.ok (cond b "True" "False")
    | .int i => ReprResult.ok (toString i)
    | .extFunction fId => ReprResult.ok ("<external function " ++ toString fId ++ ">")
    | .undefined => ReprResult.fault
    | .ref id =>
      match h.objects[id]? with
      | some (some entry) =>
        match entry.data with
        | some (.str s) => ReprResult.ok (string_repr s)
        | some (.bytes b) => ReprResult.ok (bytes_repr b)
        | some (.object o) => value_py_repr fuel1 h o
        | some (.list l) => repr_sequence fuel1 "[" "]" l h
        | some (.tuple t) => repr_sequence fuel1 "(" ")" t h
        | some (.dict d) => dict_py_repr fuel1 h d
        | Option.none => ReprResult.fault
      | _ => ReprResult.fault
  termination_by (fuel, 0, 0)

/-- `repr_sequence` (src/src/values/list.rs lines 213-227): open bracket,
element reprs joined by a comma and one space, close bracket; the element
loop calls `item.py_repr(heap)` with no seen-set. -/
def repr_sequence (fuel : Nat) (start stop : String) (items : List Value) (h : Heap) :
    ReprResult :=
  match repr_items fuel h items with
  | Except.ok ss => ReprResult.ok (start ++ String.intercalate ", " ss ++ stop)
  | Except.error r => r
  termination_by (fuel, 2, 0)

/-- The element loop of `repr_sequence`: repr of each item in order,
stopping at the first panic or fuel exhaustion. -/
def repr_items (fuel : Nat) (h : Heap) (items : List Value) :
    Except ReprResult (List String) :=
  match items with
  | [] => Except.ok []
  | v :: rest =>
    match value_py_repr fuel h v with
    | ReprResult.ok s => (repr_items fuel h rest).map (s :: ·)
    | r => Except.error r
  termination_by (fuel, 1, items.length)

/-- `Dict::py_repr` (src/src/values/dict.rs lines 324-344): the empty dict
prints the brace pair; otherwise brace, comma-joined `key: value` entries
over every bucket pair in order, closing brace; keys and values are
reprd with no seen-set. -/
def dict_py_repr (fuel : Nat) (h : Heap) (d : List (Nat × List (Value × Value))) :
    ReprResult :=
  match d.flatMap (·.2) with
  | [] => ReprResult.ok "\x7b\x7d"
  | _ :: _ =>
    match repr_pairs fuel h (d.flatMap (·.2)) with
    | Except.ok entries =>
      ReprResult.ok ("\x7b" ++ String.intercalate ", " entries ++ "\x7d")
    | Except.error r => r
  termination_by (fuel, 2, 0)

/-- The entry loop of `Dict::py_repr`: `key_repr: value_repr` for each
pair in bucket order. -/
def repr_pairs (fuel : Nat) (h : Heap) (pairs : List (Value × Value)) :
    Except ReprResult (List String) :=
  match pairs with
  | [] => Except.ok []
  | kv :: rest =>
    match value_py_repr fuel h kv.1 with
    | ReprResult.ok ks =>
      match value_py_repr fuel h kv.2 with
      | ReprResult.ok vs => (repr_pairs fuel h rest).map ((ks ++ ": " ++ vs) :: ·)
      | r => Except.error r
    | r => Except.error r
  termination_by (fuel, 1, pairs.length)

end

/-- A repr evaluation terminates when some fuel bound suffices to produce
a string or hit a genuine Rust panic; the source (fuel-free) recursion
diverges exactly when no fuel suffices. -/
def reprTerminates (h : Heap) (v : Value) : Prop :=
  ∃ fuel, value_py_repr fuel h v ≠ ReprResult.outOfFuel

/-- `ResourceError` (src/src/resource.rs lines 8-16, plus the `Recursion`
variant the crates/monty iteration adds, per the spec error taxonomy).
The `Time` variant of the source carries two `Duration`s; wall-clock time
is outside the shallow embedding, so the variant is kept abstract. -/
inductive ResourceError where
  | allocation (limit count : Nat)
  | time
  | memory (limit used : Nat)
  | recursion
  deriving Repr, DecidableEq

/-- `ResourceLimits` (src/src/resource.rs lines 125-135): optional limits;
`maxRecursionDepth` is the extra knob of the crates/monty iteration
(`monty::ResourceLimits::max_recursion_depth`, called from
src/crates/monty-python/src/limits.rs).  The `max_duration` field is
omitted: wall-clock time is outside the shallow embedding. -/
structure ResourceLimits where
  maxAllocations : Option Nat
  maxMemory : Option Nat
  gcInterval : Option Nat
  maxRecursionDepth : Option Nat
  deriving Repr, DecidableEq

/-- `ResourceLimits::new` / `default`: all limits disabled. -/
def ResourceLimits.new : ResourceLimits :=
  ⟨Option.none, Option.none, Option.none, Option.none⟩

/-- `LimitedTracker` (src/src/resource.rs lines 179-189): limits plus the
allocation, memory and GC counters.  `start_time` is omitted with the time
limit. -/
structure LimitedTracker where
  limits : ResourceLimits
  allocationCount : Nat
  currentMemory : Nat
  allocationsSinceGc : Nat
  deriving Repr, DecidableEq

/-- `LimitedTracker::new` (src/src/resource.rs lines 197-205): zeroed
counters. -/
def LimitedTracker.new (limits : ResourceLimits) : LimitedTracker :=
  ⟨limits, 0, 0, 0⟩

/-- Memory-check-and-update tail of `LimitedTracker::on_allocate`
(src/src/resource.rs lines 238-255): evaluate the size closure, check the
memory limit, then bump all three counters. -/
def LimitedTracker.allocate_size_check (t : LimitedTracker) (get_size : Unit → Nat) :
    Except ResourceError Unit × LimitedTracker :=
  match t.limits.maxMemory with
  | some max =>
    if t.currentMemory + get_size () > max then
      (Except.error (ResourceError.memory max (t.currentMemory + get_size ())), t)
    else
      (Except.ok (),
       { t with
         allocationCount := t.allocationCount + 1
         currentMemory := t.currentMemory + get_size ()
         allocationsSinceGc := t.allocationsSinceGc + 1 })
  | Option.none =>
    (Except.ok (),
     { t with
       allocationCount := t.allocationCount + 1
       currentMemory := t.currentMemory + get_size ()
       allocationsSinceGc := t.allocationsSinceGc + 1 })

/-- `LimitedTracker::on_allocate` (src/src/resource.rs lines 227-256):
first the allocation-count limit (error reports `count = count + 1`,
leaving the tracker untouched), then the memory limit, then the counter
updates.  The Rust method mutates `self` and returns `Result<()>`; here
the updated tracker is returned alongside, identical to the input in every
error branch. -/
def LimitedTracker.on_allocate (t : LimitedTracker) (get_size : Unit → Nat) :
    Except ResourceError Unit × LimitedTracker :=
  match t.limits.maxAllocations with
  | some max =>
    if t.allocationCount ≥ max then
      (Except.error (ResourceError.allocation max (t.allocationCount + 1)), t)
    else
      t.allocate_size_check get_size
  | Option.none => t.allocate_size_check get_size

/-- `LimitedTracker::on_free` (src/src/resource.rs lines 258-260):
saturating subtraction of the freed size. -/
def LimitedTracker.on_free (t : LimitedTracker) (get_size : Unit → Nat) : LimitedTracker :=
  { t with currentMemory := t.currentMemory - get_size () }

/-- `LimitedTracker::should_gc` (src/src/resource.rs lines 272-276). -/
def LimitedTracker.should_gc (t : LimitedTracker) : Bool :=
  match t.limits.gcInterval with
  | some interval => t.allocationsSinceGc ≥ interval
  | Option.none => false

/-- `LimitedTracker::on_gc_complete` (src/src/resource.rs lines 278-280). -/
def LimitedTracker.on_gc_complete (t : LimitedTracker) : LimitedTracker :=
  { t with allocationsSinceGc := 0 }

/-- Recursion-depth check of the crates/monty tracker.

Modelled from the spec: `check_recursion_depth` lives in
crates/monty/src/resource.rs, which is absent from the sources; the spec
states `check_recursion_depth(depth) -> Ok | Err(ResourceError::Recursion)`
with "Recursion beyond the configured depth" producing the error, depth
limit configurable with default 1000 (src/crates/monty-python/src/limits.rs
and the spec tracker section). -/
def LimitedTracker.check_recursion_depth (t : LimitedTracker) (depth : Nat) :
    Except ResourceError Unit :=
  match t.limits.maxRecursionDepth with
  | some limit => if depth ≥ limit then Except.error ResourceError.recursion else Except.ok ()
  | Option.none => Except.ok ()

/-- `PyResourceLimits` (src/crates/monty-python/src/limits.rs): the Python
facade over `ResourceLimits`; `max_duration_secs` omitted with time. -/
structure PyResourceLimits where
  maxAllocations : Option Nat
  maxMemory : Option Nat
  gcInterval : Option Nat
  maxRecursionDepth : Option Nat
  deriving Repr, DecidableEq

/-- `PyResourceLimits::new` with every argument defaulted (the pyo3
signature in src/crates/monty-python/src/limits.rs lines 58-81 defaults
`max_recursion_depth` to `Some(1000)` and everything else to `None`). -/
def PyResourceLimits.new : PyResourceLimits :=
  ⟨Option.none, Option.none, Option.none, some 1000⟩

/-- `PyResourceLimits::to_monty_limits` (src/crates/monty-python/src/limits.rs
lines 95-115): start from `ResourceLimits::new().max_recursion_depth(..)`
and copy each configured limit over. -/
def PyResourceLimits.to_monty_limits (p : PyResourceLimits) : ResourceLimits :=
  ⟨p.maxAllocations, p.maxMemory, p.gcInterval, p.maxRecursionDepth⟩

/-- Exception types of the guest error taxonomy that the claims touch
(crates/monty exception_private.rs is absent; the taxonomy is fixed by the
spec error-handling section and the `not_implemented` call in
src/crates/monty/src/function.rs). -/
inductive ExcType where
  | NotImplementedError
  | TypeError
  | NameError
  deriving Repr, DecidableEq

/-- A raised guest exception: type plus message. -/
structure SimpleException where
  excType : ExcType
  message : String
  deriving Repr, DecidableEq

/-- `RunError`: a guest exception (catchable by guest `try`/`except`), a
resource error (terminal), or a Rust panic of the interpreter itself
(modelling device for `expect`/`panic!`; no claim relies on a fault). -/
inductive RunError where
  | exc (e : SimpleException)
  | resource (e : ResourceError)
  | fault (msg : String)
  deriving Repr, DecidableEq

/-- Whether guest `try`/`except` can catch a run error.

Modelled from the spec: the `try`/`except` machinery lives in the absent
crates/monty run_frame.rs; the spec states "Errors are terminal for the
run (not catchable by guest code)" for resource errors while guest
exceptions are catchable. -/
def RunError.is_catchable : RunError → Bool
  | .exc _ => true
  | .resource _ => false
  | .fault _ => false

/-- `Value::py_bool` truthiness (spec value protocol; the dispatch for
heap payloads is the `py_bool` of each payload in src/src/values/.rs:
containers and strings are truthy when non-empty).  A boxed-object payload
holds an immediate, whose truthiness is inlined (a nested reference cannot
occur there). -/
def Value.py_bool (v : Value) (h : Heap) : Option Bool :=
  match v with
  | .none => some false
  | .bool b => some b
  | .int i => some (decide (i ≠ 0))
  | .extFunction _ => some true
  | .undefined => Option.none
  | .ref id =>
    match h.objects[id]? with
    | some (some entry) =>
      match entry.data with
      | some (.str s) => some (!s.isEmpty)
      | some (.bytes b) => some (!b.isEmpty)
      | some (.list l) => some (!l.isEmpty)
      | some (.tuple t) => some (!t.isEmpty)
      | some (.dict d) => some (!(d.flatMap (·.2)).isEmpty)
      | some (.object o) =>
        match o with
        | .none => some false
        | .bool b => some b
        | .int i => some (decide (i ≠ 0))
        | .extFunction _ => some true
        | _ => Option.none
      | Option.none => Option.none
    | _ => Option.none

/-- The binary operators of the embedded expression fragment.  The
evaluator routes `And`/`Or` to the short-circuit helpers; every other
operator of src/src/operators.rs goes through `eval_op`, which is outside
this fragment. -/
inductive Operator where
  | and
  | or
  deriving Repr, DecidableEq

/-- Expression fragment of the prepared AST (src/src/expressions.rs is
absent; the variants and their evaluation are pinned by the `match` arms
of `evaluate_use` in src/src/evaluate.rs): literals, list displays (which
allocate, hence have an observable side effect), boolean operators and
`not`. -/
inductive Expr where
  | literal (v : Value)
  | list (els : List Expr)
  | op (left : Expr) (o : Operator) (right : Expr)
  | not (e : Expr)

mutual

/-- `evaluate_use` (src/src/evaluate.rs lines 22-107) restricted to the
embedded fragment: literals return the value with no state change; list
displays evaluate the elements left to right and allocate a fresh list;
`And`/`Or` dispatch to `eval_and`/`eval_or`; `not` evaluates the operand,
negates its truthiness and drops the temporary. -/
def evaluate_use (h : Heap) (e : Expr) : Except RunError (Value × Heap) :=
  match e with
  | .literal v => Except.ok (v, h)
  | .list els =>
    (evaluate_elements h els).map fun vsh =>
      let ha := vsh.2.allocate (.list vsh.1)
      (Value.ref ha.2, ha.1)
  | .op left o right =>
    match o with
    | .and => eval_and h left right
    | .or => eval_or h left right
  | .not e1 =>
    (evaluate_use h e1).bind fun vh =>
      match vh.1.py_bool vh.2 with
      | some b =>
        match vh.1.drop_with_heap vh.2 with
        | some h2 => Except.ok (Value.bool !b, h2)
        | Option.none => Except.error (RunError.fault "drop_with_heap")
      | Option.none => Except.error (RunError.fault "py_bool")
  termination_by sizeOf e

/-- Left-to-right evaluation of list-display elements, the
`elements.iter().map(|e| evaluate_use(..)).collect()` of the `Expr::List`
arm. -/
def evaluate_elements (h : Heap) (els : List Expr) : Except RunError (List Value × Heap) :=
  match els with
  | [] => Except.ok ([], h)
  | e :: rest =>
    (evaluate_use h e).bind fun vh =>
      (evaluate_elements vh.2 rest).map fun vsh => (vh.1 :: vsh.1, vsh.2)
  termination_by sizeOf els

/-- `eval_and` (src/src/evaluate.rs lines 284-300): evaluate the left
operand; when truthy, drop it and evaluate the right operand; when falsy,
short-circuit and return the falsy left operand itself. -/
def eval_and (h : Heap) (left right : Expr) : Except RunError (Value × Heap) :=
  (evaluate_use h left).bind fun lh =>
    match lh.1.py_bool lh.2 with
    | some true =>
      match lh.1.drop_with_heap lh.2 with
      | some h2 => evaluate_use h2 right
      | Option.none => Except.error (RunError.fault "drop_with_heap")
    | some false => Except.ok (lh.1, lh.2)
    | Option.none => Except.error (RunError.fault "py_bool")
  termination_by 1 + sizeOf left + sizeOf right

/-- `eval_or` (src/src/evaluate.rs lines 302-321): evaluate the left
operand; when truthy, short-circuit and return the truthy left operand
itself; when falsy, drop it and evaluate the right operand. -/
def eval_or (h : Heap) (left right : Expr) : Except RunError (Value × Heap) :=
  (evaluate_use h left).bind fun lh =>
    match lh.1.py_bool lh.2 with
    | some true => Except.ok (lh.1, lh.2)
    | some false =>
      match lh.1.drop_with_heap lh.2 with
      | some h2 => evaluate_use h2 right
      | Option.none => Except.error (RunError.fault "drop_with_heap")
    | Option.none => Except.error (RunError.fault "py_bool")
  termination_by 1 + sizeOf left + sizeOf right

end

/-- `Namespaces` (src/crates/monty/src/namespace.rs lines 83-97): the
namespace stack (index 0 is global), the free list of reusable namespace
indices, and the external-call return buffer with its consumption
pointer.  The Rust `Vec` free list pushes and pops at the end; the Lean
list uses its head as the top of that stack. -/
structure Namespaces where
  stack : List (List Value)
  reuse_ids : List Nat
  ext_return_values : List Value
  next_ext_return_value : Nat
  deriving Repr, DecidableEq

/-- `Namespaces::new` (src/crates/monty/src/namespace.rs lines 103-110). -/
def Namespaces.new (globalNamespace : List Value) : Namespaces :=
  ⟨[globalNamespace], [], [], 0⟩

/-- `Namespaces::push_ext_return_value` (src/crates/monty/src/namespace.rs
lines 116-119): reset the consumption pointer to zero and append the
host-supplied return value to the buffer. -/
def Namespaces.push_ext_return_value (ns : Namespaces) (return_value : Value) : Namespaces :=
  { ns with
    next_ext_return_value := 0
    ext_return_values := ns.ext_return_values ++ [return_value] }

/-- `Namespaces::take_ext_return_value` (src/crates/monty/src/namespace.rs
lines 125-132): when the pointer indexes a buffered value, advance the
pointer and return a refcount-correct clone of the value; otherwise
`none` (inner), leaving the state unchanged.  The outer `Option` models
the clone panic on a dangling reference. -/
def Namespaces.take_ext_return_value (ns : Namespaces) (h : Heap) :
    Option (Option Value × Namespaces × Heap) :=
  match ns.ext_return_values[ns.next_ext_return_value]? with
  | some v =>
    (v.clone_with_heap h).map fun vh =>
      (some vh.1,
       { ns with next_ext_return_value := ns.next_ext_return_value + 1 },
       vh.2)
  | Option.none => some (Option.none, ns, h)

/-- `Namespaces::clear_ext_return_values` (src/crates/monty/src/namespace.rs
lines 137-141, the variant without the ref-count-panic feature). -/
def Namespaces.clear_ext_return_values (ns : Namespaces) : Namespaces :=
  { ns with ext_return_values := [], next_ext_return_value := 0 }

/-- `std::mem::size_of::<Value>()`: a fixed compile-time constant of the
Rust layout; no claim depends on its numeric value, only on namespace
memory being charged proportionally to it. -/
def size_of_value : Nat := 16

/-- `Namespaces::new_namespace` (src/crates/monty/src/namespace.rs lines
188-209): check the recursion depth (`stack.len() - 1`, excluding the
global namespace) before charging memory; charge
`namespace_size * size_of::<Value>()` against the tracker; then pop a
reusable index off the free list, or append a fresh empty namespace and
return its index.  Errors leave the namespaces and (for the recursion
check) the tracker untouched. -/
def Namespaces.new_namespace (ns : Namespaces) (namespace_size : Nat) (t : LimitedTracker) :
    Except ResourceError Nat × Namespaces × LimitedTracker :=
  let current_depth := ns.stack.length - 1
  match t.check_recursion_depth current_depth with
  | Except.error e => (Except.error e, ns, t)
  | Except.ok () =>
    let size := namespace_size * size_of_value
    match t.on_allocate (fun _ => size) with
    | (Except.error e, t2) => (Except.error e, ns, t2)
    | (Except.ok (), t2) =>
      match ns.reuse_ids with
      | reuse_id :: rest => (Except.ok reuse_id, { ns with reuse_ids := rest }, t2)
      | [] =>
        (Except.ok ns.stack.length, { ns with stack := ns.stack ++ [[]] }, t2)

/-- Result of evaluating an expression in the crates/monty evaluator: a
value, or a pending external call (`EvalResult` in
crates/monty/src/evaluate.rs, carried by `Callable::call`). -/
inductive EvalResult where
  | value (v : Value)
  | externalCall (f_id : Nat) (args : List Value)
  deriving Repr, DecidableEq

/-- `ArgValues::drop_with_heap`: drop each evaluated argument. -/
def drop_args (h : Heap) : List Value → Option Heap
  | [] => some h
  | v :: rest => (v.drop_with_heap h).bind fun h2 => drop_args h2 rest

/-- The `Value::ExtFunction` arm of `Callable::call`
(src/crates/monty/src/callable.rs lines 79-94): consult the external-return
buffer; when a buffered value remains, drop the re-evaluated arguments and
return the buffered value as the call result; only when the buffer is
exhausted return an `ExternalCall` carrying the function id and the
evaluated arguments. -/
def call_ext_function (ns : Namespaces) (h : Heap) (f_id : Nat) (args : List Value) :
    Option (EvalResult × Namespaces × Heap) :=
  match ns.take_ext_return_value h with
  | some (some return_value, ns2, h2) =>
    (drop_args h2 args).map fun h3 => (EvalResult.value return_value, ns2, h3)
  | some (Option.none, ns2, h2) =>
    some (EvalResult.externalCall f_id args, ns2, h2)
  | Option.none => Option.none

/-- `FrameExit` (src/crates/monty/src/snapshot.rs lines 17-26): a frame
finishes by returning a value or by pausing at an external function call
whose arguments are already evaluated. -/
inductive FrameExit where
  | Return (v : Value)
  | ExternalCall (f_id : Nat) (args : List Value)
  deriving Repr, DecidableEq

/-- `map_result` (src/crates/monty/src/function.rs lines 255-266): the
exit of a user-defined function body is mapped to the function-call
result; an `ExternalCall` exit is converted into a `NotImplementedError`
guest exception ("external function calls inside user-defined functions
not yet supported"); a body falling off the end returns `None`. -/
def map_result (result : Except RunError (Option FrameExit)) : Except RunError Value :=
  match result with
  | Except.error e => Except.error e
  | Except.ok (some (FrameExit.Return obj)) => Except.ok obj
  | Except.ok (some (FrameExit.ExternalCall _ _)) =>
    Except.error (RunError.exc
      ⟨ExcType.NotImplementedError, "external function calls inside user-defined functions"⟩)
  | Except.ok Option.none => Except.ok Value.none

/-! ## Observation helpers and preservation lemmas -/

/-- Observation helper of the embedding: the live entry stored at a slot
(`none` when the slot is out of range or vacated). -/
def slotEntry (h : Heap) (id : Nat) : Option HeapObject :=
  match h.objects[id]? with
  | some (some e) => some e
  | _ => Option.none

/-- Observation helper of the embedding: the payload stored at a live slot. -/
def slotData (h : Heap) (id : Nat) : Option (Option HeapData) :=
  (slotEntry h id).map (·.data)

theorem slotEntry_lt_length (h : Heap) (id : Nat) (e : HeapObject)
    (he : slotEntry h id = some e) : id < h.objects.length := by
  unfold slotEntry at he
  by_contra hge
  rw [List.getElem?_eq_none (by omega)] at he
  simp at he

theorem slotEntry_set (h : Heap) (id : Nat) (x : Option HeapObject) (j : Nat)
    (e2 : HeapObject) (hj : slotEntry ⟨h.objects.set id x⟩ j = some e2) :
    (j = id ∧ x = some e2) ∨ (j ≠ id ∧ slotEntry h j = some e2) := by
  unfold slotEntry at hj ⊢
  by_cases hid : id = j
  · subst hid
    rw [List.getElem?_set] at hj
    simp only [if_pos rfl] at hj
    by_cases hlen : id < h.objects.length
    · rw [if_pos hlen] at hj
      left
      cases x with
      | none => simp at hj
      | some e => simp at hj; exact ⟨rfl, by rw [hj]⟩
    · rw [if_neg hlen] at hj
      simp at hj
  · right
    rw [List.getElem?_set_ne hid] at hj
    exact ⟨fun hc => hid hc.symm, hj⟩

theorem clone_with_heap_fst (v : Value) (h : Heap) (w : Value) (h2 : Heap)
    (hc : v.clone_with_heap h = some (w, h2)) : w = v := by
  cases v <;> simp only [Value.clone_with_heap] at hc
  case ref id =>
    rw [Option.map_eq_some'] at hc
    obtain ⟨h3, -, heq⟩ := hc
    exact (congrArg Prod.fst heq).symm
  all_goals
    exact (congrArg Prod.fst (Option.some.inj hc)).symm

theorem inc_ref_length (h : Heap) (id : Nat) (h2 : Heap)
    (hi : h.inc_ref id = some h2) : h2.objects.length = h.objects.length := by
  unfold Heap.inc_ref at hi
  cases hg : h.objects[id]? with
  | none => rw [hg] at hi; simp at hi
  | some o =>
    cases o with
    | none => rw [hg] at hi; simp at hi
    | some e =>
      rw [hg] at hi
      simp at hi
      rw [← hi]
      simp [List.length_set]

theorem inc_ref_slot (h : Heap) (id : Nat) (h2 : Heap) (j : Nat) (e2 : HeapObject)
    (hi : h.inc_ref id = some h2) (hj : slotEntry h2 j = some e2) :
    ∃ e, slotEntry h j = some e ∧ e2.data = e.data ∧ e2.cachedHash = e.cachedHash := by
  unfold Heap.inc_ref at hi
  cases hg : h.objects[id]? with
  | none => rw [hg] at hi; simp at hi
  | some o =>
    cases o with
    | none => rw [hg] at hi; simp at hi
    | some e =>
      rw [hg] at hi
      simp at hi
      subst hi
      rcases slotEntry_set h id _ j e2 hj with ⟨hjid, hx⟩ | ⟨_, hx⟩
      · subst hjid
        refine ⟨e, ?_, ?_, ?_⟩
        · unfold slotEntry; rw [hg]
        · simp at hx; rw [← hx]
        · simp at hx; rw [← hx]
      · exact ⟨e2, hx, rfl, rfl⟩

theorem decRefLoop_length (h : Heap) (stack : List Nat) :
    ∀ h2, decRefLoop h stack = some h2 → h2.objects.length = h.objects.length := by
  induction h, stack using decRefLoop.induct with
  | case1 h =>
    intro h2 hrun
    unfold decRefLoop at hrun
    simp at hrun
    rw [hrun]
  | case2 h id rest entry hslot hgt ih =>
    intro h2 hrun
    unfold decRefLoop at hrun
    rw [hslot] at hrun
    simp only [if_pos hgt] at hrun
    have := ih h2 hrun
    simpa [List.length_set] using this
  | case3 h id rest entry hslot hle ih =>
    intro h2 hrun
    unfold decRefLoop at hrun
    rw [hslot] at hrun
    simp only [if_neg hle] at hrun
    have := ih h2 hrun
    simpa [List.length_set] using this
  | case4 h id rest hslot =>
    intro h2 hrun
    unfold decRefLoop at hrun
    rcases hg : h.objects[id]? with _ | o
    · rw [hg] at hrun; simp at hrun
    · cases o with
      | none => rw [hg] at hrun; simp at hrun
      | some e => exact absurd hg (hslot e)

theorem decRefLoop_slot (h : Heap) (stack : List Nat) :
    ∀ h2, decRefLoop h stack = some h2 → ∀ j e2, slotEntry h2 j = some e2 →
      ∃ e, slotEntry h j = some e ∧ e2.data = e.data ∧ e2.cachedHash = e.cachedHash := by
  induction h, stack using decRefLoop.induct with
  | case1 h =>
    intro h2 hrun j e2 hj
    unfold decRefLoop at hrun
    simp at hrun
    rw [← hrun] at hj
    exact ⟨e2, hj, rfl, rfl⟩
  | case2 h id rest entry hslot hgt ih =>
    intro h2 hrun j e2 hj
    unfold decRefLoop at hrun
    rw [hslot] at hrun
    simp only [if_pos hgt] at hrun
    obtain ⟨e, he, hd, hh⟩ := ih h2 hrun j e2 hj
    rcases slotEntry_set h id _ j e he with ⟨hjid, hx⟩ | ⟨_, hx⟩
    · subst hjid
      refine ⟨entry, ?_, ?_, ?_⟩
      · unfold slotEntry; rw [hslot]
      · simp at hx; rw [hd, ← hx]
      · simp at hx; rw [hh, ← hx]
    · exact ⟨e, hx, hd, hh⟩
  | case3 h id rest entry hslot hle ih =>
    intro h2 hrun j e2 hj
    unfold decRefLoop at hrun
    rw [hslot] at hrun
    simp only [if_neg hle] at hrun
    obtain ⟨e, he, hd, hh⟩ := ih h2 hrun j e2 hj
    rcases slotEntry_set h id _ j e he with ⟨_, hx⟩ | ⟨_, hx⟩
    · simp at hx
    · exact ⟨e, hx, hd, hh⟩
  | case4 h id rest hslot =>
    intro h2 hrun
    unfold decRefLoop at hrun
    rcases hg : h.objects[id]? with _ | o
    · rw [hg] at hrun; simp at hrun
    · cases o with
      | none => rw [hg] at hrun; simp at hrun
      | some e => exact absurd hg (hslot e)

/-- A primitive heap operation of src/src/heap.rs.  Every public heap
entry point (`call_attr`, `with_entry_mut`, `with_two`, the container
methods) is a composition of these primitives; a run of the interpreter
performs a sequence of them on one heap. -/
inductive HeapOp where
  | alloc (d : HeapData)
  | incr (id : Nat)
  | decr (id : Nat)
  | take (id : Nat)
  | restore (id : Nat) (d : HeapData)

/-- Apply one primitive heap operation (`none` models the panics). -/
def applyOp (h : Heap) : HeapOp → Option Heap
  | .alloc d => some (h.allocate d).1
  | .incr id => h.inc_ref id
  | .decr id => h.dec_ref id
  | .take id => (h.take_data id).map (·.2)
  | .restore id d => h.restore_data id d

/-- Apply a sequence of primitive heap operations. -/
def runOps (h : Heap) : List HeapOp → Option Heap
  | [] => some h
  | op :: rest => (applyOp h op).bind fun h2 => runOps h2 rest

theorem applyOp_length (h : Heap) (op : HeapOp) (h2 : Heap)
    (ha : applyOp h op = some h2) : h.objects.length ≤ h2.objects.length := by
  cases op with
  | alloc d =>
    simp only [applyOp, Option.some.injEq] at ha
    rw [← ha]
    simp [Heap.allocate]
  | incr id =>
    simp only [applyOp] at ha
    rw [inc_ref_length h id h2 ha]
  | decr id =>
    simp only [applyOp, Heap.dec_ref] at ha
    rw [decRefLoop_length h [id] h2 ha]
  | take id =>
    cases hg : h.objects[id]? with
    | none => simp [applyOp, Heap.take_data, hg] at ha
    | some o =>
      cases o with
      | none => simp [applyOp, Heap.take_data, hg] at ha
      | some e =>
        cases hd : e.data with
        | none => simp [applyOp, Heap.take_data, hg, hd] at ha
        | some d =>
          simp [applyOp, Heap.take_data, hg, hd] at ha
          rw [← ha]
          simp [List.length_set]
  | restore id d =>
    cases hg : h.objects[id]? with
    | none => simp [applyOp, Heap.restore_data, hg] at ha
    | some o =>
      cases o with
      | none => simp [applyOp, Heap.restore_data, hg] at ha
      | some e =>
        simp [applyOp, Heap.restore_data, hg] at ha
        rw [← ha]
        simp [List.length_set]

theorem applyOp_hash_stable (h : Heap) (op : HeapOp) (h2 : Heap) (j : Nat) (e2 : HeapObject)
    (ha : applyOp h op = some h2) (hj : slotEntry h2 j = some e2)
    (hlt : j < h.objects.length) :
    ∃ e, slotEntry h j = some e ∧ e2.cachedHash = e.cachedHash := by
  cases op with
  | alloc d =>
    simp only [applyOp, Option.some.injEq] at ha
    rw [← ha] at hj
    unfold slotEntry at hj ⊢
    simp only [Heap.allocate] at hj
    rw [List.getElem?_append, if_pos hlt] at hj
    exact ⟨e2, hj, rfl⟩
  | incr id =>
    simp only [applyOp] at ha
    obtain ⟨e, he, _, hh⟩ := inc_ref_slot h id h2 j e2 ha hj
    exact ⟨e, he, hh⟩
  | decr id =>
    simp only [applyOp, Heap.dec_ref] at ha
    obtain ⟨e, he, _, hh⟩ := decRefLoop_slot h [id] h2 ha j e2 hj
    exact ⟨e, he, hh⟩
  | take id =>
    cases hg : h.objects[id]? with
    | none => simp [applyOp, Heap.take_data, hg] at ha
    | some o =>
      cases o with
      | none => simp [applyOp, Heap.take_data, hg] at ha
      | some e =>
        cases hd : e.data with
        | none => simp [applyOp, Heap.take_data, hg, hd] at ha
        | some d =>
          simp [applyOp, Heap.take_data, hg, hd] at ha
          rw [← ha] at hj
          rcases slotEntry_set h id _ j e2 hj with ⟨hjid, hx⟩ | ⟨_, hx⟩
          · subst hjid
            refine ⟨e, ?_, ?_⟩
            · unfold slotEntry; rw [hg]
            · simp at hx; rw [← hx]
          · exact ⟨e2, hx, rfl⟩
  | restore id d =>
    cases hg : h.objects[id]? with
    | none => simp [applyOp, Heap.restore_data, hg] at ha
    | some o =>
      cases o with
      | none => simp [applyOp, Heap.restore_data, hg] at ha
      | some e =>
        simp [applyOp, Heap.restore_data, hg] at ha
        rw [← ha] at hj
        rcases slotEntry_set h id _ j e2 hj with ⟨hjid, hx⟩ | ⟨_, hx⟩
        · subst hjid
          refine ⟨e, ?_, ?_⟩
          · unfold slotEntry; rw [hg]
          · simp at hx; rw [← hx]
        · exact ⟨e2, hx, rfl⟩

theorem runOps_length (ops : List HeapOp) :
    ∀ h h2, runOps h ops = some h2 → h.objects.length ≤ h2.objects.length := by
  induction ops with
  | nil =>
    intro h h2 hrun
    simp only [runOps, Option.some.injEq] at hrun
    rw [hrun]
  | cons op rest ih =>
    intro h h2 hrun
    simp only [runOps] at hrun
    cases hap : applyOp h op with
    | none => rw [hap] at hrun; simp at hrun
    | some h1 =>
      rw [hap] at hrun
      simp at hrun
      exact le_trans (applyOp_length h op h1 hap) (ih h1 h2 hrun)

theorem runOps_hash_stable (ops : List HeapOp) :
    ∀ h h2 j e2, runOps h ops = some h2 → slotEntry h2 j = some e2 →
      j < h.objects.length →
      ∃ e, slotEntry h j = some e ∧ e2.cachedHash = e.cachedHash := by
  induction ops with
  | nil =>
    intro h h2 j e2 hrun hj _
    simp only [runOps, Option.some.injEq] at hrun
    rw [← hrun] at hj
    exact ⟨e2, hj, rfl⟩
  | cons op rest ih =>
    intro h h2 j e2 hrun hj hlt
    simp only [runOps] at hrun
    cases hap : applyOp h op with
    | none => rw [hap] at hrun; simp at hrun
    | some h1 =>
      rw [hap] at hrun
      simp at hrun
      have hlt1 : j < h1.objects.length := lt_of_lt_of_le hlt (applyOp_length h op h1 hap)
      obtain ⟨e1, he1, hh1⟩ := ih h1 h2 j e2 hrun hj hlt1
      obtain ⟨e, he, hh⟩ := applyOp_hash_stable h op h1 j e1 hap he1 hlt
      exact ⟨e, he, by rw [hh1, hh]⟩

theorem tupleElemHashes_isSome (h : Heap) :
    ∀ (l : List Value), (tupleElemHashes h l).isSome = true ↔
      ∀ v ∈ l, (pyHashU64 h v).isSome = true := by
  intro l
  induction l with
  | nil => simp [tupleElemHashes]
  | cons a t ih =>
    rw [List.forall_mem_cons, ← ih]
    cases hf : pyHashU64 h a with
    | none => simp [tupleElemHashes, hf]
    | some b =>
      cases hm : tupleElemHashes h t with
      | none => simp [tupleElemHashes, hf, hm]
      | some bs => simp [tupleElemHashes, hf, hm]

theorem decRefLoop_nil (h : Heap) : decRefLoop h [] = some h := by
  rw [decRefLoop.eq_def]

theorem decRefLoop_cons_free (h : Heap) (id : Nat) (rest : List Nat) (e : HeapObject)
    (hg : h.objects[id]? = some (some e)) (hrc : ¬ e.refcount > 1) :
    decRefLoop h (id :: rest) =
      decRefLoop ⟨h.objects.set id Option.none⟩
        ((match e.data with | some d => (childIds d).reverse | Option.none => []) ++ rest) := by
  rw [decRefLoop.eq_def]
  split
  · next heq => cases heq
  · next hh ii rr heq =>
    injection heq with h1 h2
    subst h1
    subst h2
    split
    · next entry heq2 =>
      rw [hg] at heq2
      have hee : e = entry := by
        injection heq2 with q
        injection q
      subst hee
      rw [if_neg hrc]
    · next hne => exact absurd hg (hne e)

theorem decRefLoop_cons_dec (h : Heap) (id : Nat) (rest : List Nat) (e : HeapObject)
    (hg : h.objects[id]? = some (some e)) (hrc : e.refcount > 1) :
    decRefLoop h (id :: rest) =
      decRefLoop ⟨h.objects.set id
        (some { e with refcount := e.refcount - 1 })⟩ rest := by
  rw [decRefLoop.eq_def]
  split
  · next heq => cases heq
  · next hh ii rr heq =>
    injection heq with h1 h2
    subst h1
    subst h2
    split
    · next entry heq2 =>
      rw [hg] at heq2
      have hee : e = entry := by
        injection heq2 with q
        injection q
      subst hee
      rw [if_pos hrc]
    · next hne => exact absurd hg (hne e)

theorem dec_ref_vacates (h : Heap) (id : Nat) (e : HeapObject) (h2 : Heap)
    (he : slotEntry h id = some e) (hrc : e.refcount = 1)
    (hdec : h.dec_ref id = some h2) :
    slotEntry h2 id = Option.none ∧ h2.objects.length = h.objects.length := by
  have hlen := decRefLoop_length h [id] h2 hdec
  have hg : h.objects[id]? = some (some e) := by
    unfold slotEntry at he
    cases hx : h.objects[id]? with
    | none => rw [hx] at he; simp at he
    | some o =>
      cases o with
      | none => rw [hx] at he; simp at he
      | some e1 => rw [hx] at he; simp at he; rw [he]
  unfold Heap.dec_ref at hdec
  unfold decRefLoop at hdec
  rw [hg] at hdec
  have hnotgt : ¬ e.refcount > 1 := by omega
  simp only [if_neg hnotgt] at hdec
  constructor
  · by_contra hne
    cases hcur : slotEntry h2 id with
    | none => exact hne hcur
    | some e2 =>
      obtain ⟨e1, he1, -⟩ := decRefLoop_slot _ _ h2 hdec id e2 hcur
      have hid : id < h.objects.length := slotEntry_lt_length h id e he
      unfold slotEntry at he1
      rw [List.getElem?_set, if_pos rfl, if_pos hid] at he1
      simp at he1
  · exact hlen

/-- C4: within a single run heap ids are strictly monotone and never
reused.  (i) `allocate` returns the current slot-vector length (the number
of slots ever created since `clear`) and grows the vector by one.
(ii) `dec_ref` of a slot whose refcount is 1 vacates it (the entry becomes
empty) but removes nothing: the vector length is unchanged, so the index
is never recycled.  (iii) Any sequence of primitive heap operations never
shrinks the slot vector.  (iv) Hence the id returned by a later `allocate`
is strictly greater than the id of any earlier `allocate`, so ids of
distinct live-or-dead objects never collide within a run. -/
theorem C4_heap_ids_no_reuse :
    (∀ (h : Heap) (d : HeapData),
       (h.allocate d).2 = h.objects.length ∧
       (h.allocate d).1.objects.length = h.objects.length + 1) ∧
    (∀ (h : Heap) (id : Nat) (e : HeapObject) (h2 : Heap),
       slotEntry h id = some e → e.refcount = 1 → h.dec_ref id = some h2 →
       slotEntry h2 id = Option.none ∧ h2.objects.length = h.objects.length) ∧
    (∀ (h : Heap) (ops : List HeapOp) (h2 : Heap), runOps h ops = some h2 →
       h.objects.length ≤ h2.objects.length) ∧
    (∀ (h : Heap) (d1 : HeapData) (ops : List HeapOp) (h2 : Heap) (d2 : HeapData),
       runOps (h.allocate d1).1 ops = some h2 →
       (h.allocate d1).2 < (h2.allocate d2).2) := by
  refine ⟨fun h d => ⟨rfl, by simp [Heap.allocate]⟩,
          dec_ref_vacates,
          fun h ops h2 hrun => runOps_length ops h h2 hrun,
          fun h d1 ops h2 d2 hrun => ?_⟩
  have h1 := runOps_length ops (h.allocate d1).1 h2 hrun
  simp only [Heap.allocate] at h1 ⊢
  simp at h1
  omega

/-- C4 witness: a run on one concrete heap.  The first allocation on the
empty heap gets id 0; after its refcount drops to zero (vacating slot 0),
the next allocation still gets the fresh id 1, not the vacated slot 0. -/
theorem C4_heap_ids_no_reuse_witness :
    runOps ((⟨[]⟩ : Heap).allocate (.str "a")).1 [HeapOp.decr 0] = some ⟨[Option.none]⟩ ∧
    ((⟨[]⟩ : Heap).allocate (.str "a")).2 < ((⟨[Option.none]⟩ : Heap).allocate (.str "b")).2 := by
  have hrun : runOps ((⟨[]⟩ : Heap).allocate (.str "a")).1 [HeapOp.decr 0] =
      some ⟨[Option.none]⟩ := by
    have hstep := decRefLoop_cons_free
      ⟨[some ⟨1, some (.str "a"), computeHashIfImmutable ⟨[]⟩ (.str "a")⟩]⟩ 0 []
      ⟨1, some (.str "a"), computeHashIfImmutable ⟨[]⟩ (.str "a")⟩ rfl (by simp)
    simp only [runOps, applyOp, Heap.dec_ref, Heap.allocate, List.nil_append]
    rw [hstep]
    simp [childIds, decRefLoop_nil]
  exact ⟨hrun, C4_heap_ids_no_reuse.2.2.2 ⟨[]⟩ (.str "a") [HeapOp.decr 0] ⟨[Option.none]⟩
    (.str "b") hrun⟩

/-- C7: the cached hash is computed once, at allocation time, from the
payload: the fresh slot stores `computeHashIfImmutable` of the payload,
which is `some` exactly for `Str`, `Bytes`, and tuples all of whose
elements are hashable, and `none` for `List`, `Dict`, boxed objects, and
tuples with an unhashable element; `get_cached_hash` reads exactly the
stored value; and the stored value is unchanged by any sequence of
primitive heap operations for as long as the slot stays live, so hashes
of immutable heap values are stable across the run. -/
theorem C7_cached_hash_stable :
    (∀ (h : Heap) (d : HeapData),
       slotEntry (h.allocate d).1 (h.allocate d).2 =
         some ⟨1, some d, computeHashIfImmutable h d⟩) ∧
    (∀ (h : Heap) (s : String), computeHashIfImmutable h (.str s) = some (hashStr s)) ∧
    (∀ (h : Heap) (b : List Nat), computeHashIfImmutable h (.bytes b) = some (hashBytes b)) ∧
    (∀ (h : Heap) (t : List Value),
       (computeHashIfImmutable h (.tuple t)).isSome = true ↔
         ∀ v ∈ t, (pyHashU64 h v).isSome = true) ∧
    (∀ (h : Heap) (l : List Value), computeHashIfImmutable h (.list l) = Option.none) ∧
    (∀ (h : Heap) (d : List (Nat × List (Value × Value))),
       computeHashIfImmutable h (.dict d) = Option.none) ∧
    (∀ (h : Heap) (o : Value), computeHashIfImmutable h (.object o) = Option.none) ∧
    (∀ (h : Heap) (id : Nat) (e : HeapObject), slotEntry h id = some e →
       h.get_cached_hash id = some e.cachedHash) ∧
    (∀ (h : Heap) (ops : List HeapOp) (h2 : Heap) (id : Nat) (e e2 : HeapObject),
       runOps h ops = some h2 → slotEntry h id = some e → slotEntry h2 id = some e2 →
       e2.cachedHash = e.cachedHash) := by
  refine ⟨?_, fun h s => rfl, fun h b => rfl,
          fun h t => by simpa [computeHashIfImmutable] using tupleElemHashes_isSome h t,
          fun h l => rfl, fun h d => rfl, fun h o => rfl, ?_, ?_⟩
  · intro h d
    unfold slotEntry
    simp only [Heap.allocate]
    rw [List.getElem?_concat_length]
  · intro h id e he
    unfold slotEntry at he
    unfold Heap.get_cached_hash
    cases hx : h.objects[id]? with
    | none => rw [hx] at he; simp at he
    | some o =>
      cases o with
      | none => rw [hx] at he; simp at he
      | some e1 => rw [hx] at he; simp at he; rw [he]
  · intro h ops h2 id e e2 hrun he he2
    obtain ⟨e3, he3, hh⟩ := runOps_hash_stable ops h h2 id e2 hrun he2
      (slotEntry_lt_length h id e he)
    rw [he] at he3
    cases he3
    exact hh

/-- C7 witness: a concrete str slot keeps its cached hash across an
inc_ref, a take, and a restore, and a concrete unhashable-list slot is
cached as `none`; the acyclic tuple and list hash facts are evaluated at
concrete payloads. -/
theorem C7_cached_hash_stable_witness :
    ((⟨[]⟩ : Heap).allocate (.str "ab")).1.get_cached_hash 0 = some (some (hashStr "ab")) ∧
    computeHashIfImmutable ⟨[]⟩ (.list [Value.int 1]) = Option.none ∧
    (∀ e2 : HeapObject,
      slotEntry ⟨[some ⟨2, some (.str "ab"), some 7⟩]⟩ 0 = some e2 → e2.cachedHash = some 7) := by
  refine ⟨?_, C7_cached_hash_stable.2.2.2.2.1 ⟨[]⟩ [Value.int 1], ?_⟩
  · have h1 := C7_cached_hash_stable.1 ⟨[]⟩ (.str "ab")
    have h2 := C7_cached_hash_stable.2.2.2.2.2.2.2.1 ((⟨[]⟩ : Heap).allocate (.str "ab")).1 0
      ⟨1, some (.str "ab"), computeHashIfImmutable ⟨[]⟩ (.str "ab")⟩ h1
    rw [h2]
    rfl
  · intro e2 he2
    have h3 := C7_cached_hash_stable.2.2.2.2.2.2.2.2
      ⟨[some ⟨2, some (.str "ab"), some 7⟩]⟩ [] ⟨[some ⟨2, some (.str "ab"), some 7⟩]⟩ 0
      ⟨2, some (.str "ab"), some 7⟩ e2 rfl rfl he2
    rw [h3]

/-- C2 counterexample: at the concrete frame exit of an external call to
function 0 with argument 1, made inside a user-defined function body,
`map_result` returns a `NotImplementedError` guest exception instead of
suspending: the claim that an external call at any frame depth, including
inside a user-defined function, returns control to the host as a
FunctionCall (not an error) is false on this code. -/
theorem C2_counterexample :
    map_result (Except.ok (some (FrameExit.ExternalCall 0 [Value.int 1]))) =
      Except.error (RunError.exc
        ⟨ExcType.NotImplementedError,
         "external function calls inside user-defined functions"⟩) := by
  rfl

/-- C2 amended: a frame exit distinguishes a normal `Return` from a
pending `ExternalCall` with the function id and evaluated arguments; but
`map_result`, which maps a user-defined function body's exit to the
function-call result, converts every `ExternalCall` exit into a
`NotImplementedError` guest exception rather than suspending, so
suspension on external calls is not propagated out of user-defined
function bodies (only module-level code suspends). -/
theorem C2_map_result_not_implemented :
    (∀ v, map_result (Except.ok (some (FrameExit.Return v))) = Except.ok v) ∧
    (∀ f_id args, map_result (Except.ok (some (FrameExit.ExternalCall f_id args))) =
      Except.error (RunError.exc
        ⟨ExcType.NotImplementedError,
         "external function calls inside user-defined functions"⟩)) ∧
    (∀ f_id args,
      (map_result (Except.ok (some (FrameExit.ExternalCall f_id args)))).isOk = false) ∧
    (∀ e, map_result (Except.error e) = Except.error e) ∧
    map_result (Except.ok Option.none) = Except.ok Value.none :=
  ⟨fun _ => rfl, fun _ _ => rfl, fun _ _ => rfl, fun _ => rfl, rfl⟩

/-- C5: `a and b` evaluates `a`; when `a` is falsy it returns the value of
`a` itself (not a coerced boolean) and the machine state is exactly the
state after evaluating `a` — `b` is not evaluated, so no side effect of
`b` (such as a heap allocation) occurs; when `a` is truthy the temporary
for `a` is dropped and the whole expression evaluates exactly as `b` does
from that state.  `a or b` is symmetric. -/
theorem C5_and_or_short_circuit (h h1 : Heap) (a b : Expr) (va : Value)
    (heval : evaluate_use h a = Except.ok (va, h1)) :
    (va.py_bool h1 = some false →
       evaluate_use h (.op a .and b) = Except.ok (va, h1)) ∧
    (∀ h2, va.py_bool h1 = some true → va.drop_with_heap h1 = some h2 →
       evaluate_use h (.op a .and b) = evaluate_use h2 b) ∧
    (va.py_bool h1 = some true →
       evaluate_use h (.op a .or b) = Except.ok (va, h1)) ∧
    (∀ h2, va.py_bool h1 = some false → va.drop_with_heap h1 = some h2 →
       evaluate_use h (.op a .or b) = evaluate_use h2 b) := by
  have hand : evaluate_use h (.op a .and b) = eval_and h a b := by
    rw [evaluate_use.eq_def]
  have hor : evaluate_use h (.op a .or b) = eval_or h a b := by
    rw [evaluate_use.eq_def]
  refine ⟨?_, ?_, ?_, ?_⟩
  · intro hfalse
    rw [hand, eval_and.eq_def, heval]
    simp [Except.bind, hfalse]
  · intro h2 htrue hdrop
    rw [hand, eval_and.eq_def, heval]
    simp [Except.bind, htrue, hdrop]
  · intro htrue
    rw [hor, eval_or.eq_def, heval]
    simp [Except.bind, htrue]
  · intro h2 hfalse hdrop
    rw [hor, eval_or.eq_def, heval]
    simp [Except.bind, hfalse, hdrop]

/-- C5 witness: on the empty heap, `0 and []` returns the left operand `0`
itself with the heap unchanged (the list display on the right, which would
allocate, is never evaluated), and `1 or []` likewise returns `1`. -/
theorem C5_and_or_short_circuit_witness :
    evaluate_use ⟨[]⟩ (.op (.literal (.int 0)) .and (.list [])) =
      Except.ok (Value.int 0, (⟨[]⟩ : Heap)) ∧
    evaluate_use ⟨[]⟩ (.op (.literal (.int 1)) .or (.list [])) =
      Except.ok (Value.int 1, (⟨[]⟩ : Heap)) := by
  constructor
  · exact (C5_and_or_short_circuit ⟨[]⟩ ⟨[]⟩ (.literal (.int 0)) (.list [])
      (.int 0) (by rw [evaluate_use.eq_def])).1 (by decide)
  · exact (C5_and_or_short_circuit ⟨[]⟩ ⟨[]⟩ (.literal (.int 1)) (.list [])
      (.int 1) (by rw [evaluate_use.eq_def])).2.2.1 (by decide)

/-- C1: on re-evaluation after a resume, a call to an `ExtFunction`-typed
callable first consults the namespaces' external-return buffer: when a
buffered value remains at the consumption pointer, the call yields that
value (refcount-correctly cloned), the re-evaluated argument values are
dropped, and the pointer advances by one — so successive external calls in
one expression consume the buffered values in call order; only when the
buffer is exhausted does evaluation return an `ExternalCall` carrying the
function id and the evaluated arguments.  `push_ext_return_value` appends
the host-supplied value and resets the pointer. -/
theorem C1_ext_return_buffer (ns : Namespaces) (h : Heap) (f_id : Nat) (args : List Value) :
    (∀ v w h2 h3,
       ns.ext_return_values[ns.next_ext_return_value]? = some v →
       v.clone_with_heap h = some (w, h2) →
       drop_args h2 args = some h3 →
       w = v ∧
       call_ext_function ns h f_id args =
         some (EvalResult.value v,
               { ns with next_ext_return_value := ns.next_ext_return_value + 1 }, h3)) ∧
    (ns.ext_return_values[ns.next_ext_return_value]? = Option.none →
       call_ext_function ns h f_id args =
         some (EvalResult.externalCall f_id args, ns, h)) ∧
    (∀ r, (ns.push_ext_return_value r).ext_return_values = ns.ext_return_values ++ [r] ∧
          (ns.push_ext_return_value r).next_ext_return_value = 0) := by
  refine ⟨?_, ?_, fun r => ⟨rfl, rfl⟩⟩
  · intro v w h2 h3 hbuf hclone hdrop
    have hw : w = v := clone_with_heap_fst v h w h2 hclone
    subst hw
    constructor
    · rfl
    · simp [call_ext_function, Namespaces.take_ext_return_value, hbuf, hclone, hdrop]
  · intro hnone
    simp [call_ext_function, Namespaces.take_ext_return_value, hnone]

/-- C1 witness: with host-supplied values 10 then 20 buffered (as after two
resumes of `f() + g()`), the first external call consumes 10, the second
consumes 20, and a third finds the buffer exhausted and surfaces an
`ExternalCall` with its function id and argument. -/
theorem C1_ext_return_buffer_witness :
    call_ext_function ⟨[[]], [], [Value.int 10, Value.int 20], 0⟩ ⟨[]⟩ 5 [] =
      some (EvalResult.value (Value.int 10),
            ⟨[[]], [], [Value.int 10, Value.int 20], 1⟩, ⟨[]⟩) ∧
    call_ext_function ⟨[[]], [], [Value.int 10, Value.int 20], 1⟩ ⟨[]⟩ 6 [] =
      some (EvalResult.value (Value.int 20),
            ⟨[[]], [], [Value.int 10, Value.int 20], 2⟩, ⟨[]⟩) ∧
    call_ext_function ⟨[[]], [], [Value.int 10, Value.int 20], 2⟩ ⟨[]⟩ 6 [Value.int 7] =
      some (EvalResult.externalCall 6 [Value.int 7],
            ⟨[[]], [], [Value.int 10, Value.int 20], 2⟩, ⟨[]⟩) := by
  refine ⟨?_, ?_, ?_⟩
  · exact ((C1_ext_return_buffer ⟨[[]], [], [Value.int 10, Value.int 20], 0⟩ ⟨[]⟩ 5 []).1
      (Value.int 10) (Value.int 10) ⟨[]⟩ ⟨[]⟩ rfl rfl rfl).2
  · exact ((C1_ext_return_buffer ⟨[[]], [], [Value.int 10, Value.int 20], 1⟩ ⟨[]⟩ 6 []).1
      (Value.int 20) (Value.int 20) ⟨[]⟩ ⟨[]⟩ rfl rfl rfl).2
  · exact (C1_ext_return_buffer ⟨[[]], [], [Value.int 10, Value.int 20], 2⟩ ⟨[]⟩ 6
      [Value.int 7]).2.1 rfl

theorem on_allocate_error_unchanged (t : LimitedTracker) (f : Unit → Nat)
    (e : ResourceError) (t2 : LimitedTracker)
    (he : t.on_allocate f = (Except.error e, t2)) : t2 = t := by
  unfold LimitedTracker.on_allocate LimitedTracker.allocate_size_check at he
  repeat' split at he
  all_goals
    first
    | exact (congrArg Prod.snd he).symm
    | exact absurd (congrArg Prod.fst he) (by simp)

/-- C8: `new_namespace` checks the recursion depth before charging memory:
when the current depth (`stack.len() - 1`) has reached the configured
limit it returns the `Recursion` resource error with the tracker (hence
the memory accounting) and the namespaces untouched; otherwise it charges
`size * sizeof(Value)` via `on_allocate` (an allocation error also leaves
everything untouched), and only when both checks pass does it return a
namespace index — a reused index popped from the free list when one is
available, else the index of a freshly appended namespace.  The default
Python-facade limits carry a recursion limit of 1000. -/
theorem C8_new_namespace_checks (ns : Namespaces) (t : LimitedTracker)
    (size limit : Nat) (hlim : t.limits.maxRecursionDepth = some limit) :
    (ns.stack.length - 1 ≥ limit →
       ns.new_namespace size t = (Except.error ResourceError.recursion, ns, t)) ∧
    (ns.stack.length - 1 < limit →
       (∀ e t2, t.on_allocate (fun _ => size * size_of_value) = (Except.error e, t2) →
          t2 = t ∧ ns.new_namespace size t = (Except.error e, ns, t)) ∧
       (∀ t2, t.on_allocate (fun _ => size * size_of_value) = (Except.ok (), t2) →
          (∀ i rest, ns.reuse_ids = i :: rest →
             ns.new_namespace size t = (Except.ok i, { ns with reuse_ids := rest }, t2)) ∧
          (ns.reuse_ids = [] →
             ns.new_namespace size t =
               (Except.ok ns.stack.length, { ns with stack := ns.stack ++ [[]] }, t2)))) ∧
    (PyResourceLimits.new.to_monty_limits).maxRecursionDepth = some 1000 := by
  refine ⟨?_, ?_, rfl⟩
  · intro hge
    unfold Namespaces.new_namespace
    simp [LimitedTracker.check_recursion_depth, hlim, hge]
  · intro hlt
    have hchk : t.check_recursion_depth (ns.stack.length - 1) = Except.ok () := by
      simp [LimitedTracker.check_recursion_depth, hlim]
      omega
    constructor
    · intro e t2 herr
      have ht2 : t2 = t := on_allocate_error_unchanged t _ e t2 herr
      refine ⟨ht2, ?_⟩
      unfold Namespaces.new_namespace
      simp [hchk, herr, ht2]
    · intro t2 hok
      constructor
      · intro i rest hreuse
        unfold Namespaces.new_namespace
        simp [hchk, hok, hreuse]
      · intro hreuse
        unfold Namespaces.new_namespace
        simp [hchk, hok, hreuse]

/-- C8 witness: with recursion limit 2 and three namespaces already on the
stack (depth 2), `new_namespace` fails with `Recursion`, tracker and
namespaces untouched; with depth below the limit and no free-list entry
it appends a fresh namespace and returns index 3. -/
theorem C8_new_namespace_checks_witness :
    Namespaces.new_namespace ⟨[[], [], []], [], [], 0⟩ 4
      (LimitedTracker.new ⟨Option.none, Option.none, Option.none, some 2⟩) =
      (Except.error ResourceError.recursion, ⟨[[], [], []], [], [], 0⟩,
       LimitedTracker.new ⟨Option.none, Option.none, Option.none, some 2⟩) ∧
    Namespaces.new_namespace ⟨[[], [], []], [], [], 0⟩ 4
      (LimitedTracker.new ⟨Option.none, Option.none, Option.none, some 9⟩) =
      (Except.ok 3, ⟨[[], [], [], []], [], [], 0⟩,
       ⟨⟨Option.none, Option.none, Option.none, some 9⟩, 1, 4 * size_of_value, 1⟩) := by
  constructor
  · exact (C8_new_namespace_checks ⟨[[], [], []], [], [], 0⟩
      (LimitedTracker.new ⟨Option.none, Option.none, Option.none, some 2⟩) 4 2 rfl).1
      (by decide)
  · exact (((C8_new_namespace_checks ⟨[[], [], []], [], [], 0⟩
      (LimitedTracker.new ⟨Option.none, Option.none, Option.none, some 9⟩) 4 9 rfl).2.1
      (by decide)).2 ⟨⟨Option.none, Option.none, Option.none, some 9⟩, 1, 4 * size_of_value, 1⟩
      (by rfl)).2 rfl

/-- Repeated application of `on_allocate` with a fixed size, the shape of
a run performing a sequence of heap allocations. -/
def iterate_on_allocate (t : LimitedTracker) (size : Nat) : Nat → LimitedTracker
  | 0 => t
  | n + 1 => ((iterate_on_allocate t size n).on_allocate (fun _ => size)).2

theorem on_allocate_ok_step (L : ResourceLimits) (N size k m g : Nat)
    (hmax : L.maxAllocations = some N) (hmem : L.maxMemory = Option.none)
    (hk : k < N) :
    LimitedTracker.on_allocate ⟨L, k, m, g⟩ (fun _ => size) =
      (Except.ok (), ⟨L, k + 1, m + size, g + 1⟩) := by
  unfold LimitedTracker.on_allocate LimitedTracker.allocate_size_check
  simp only [hmax, hmem]
  rw [if_neg (by simp; omega)]

/-- C9: with `max_allocations = N` configured (and no memory limit), the
first `N` calls to `on_allocate` succeed, each incrementing the allocation
count, the current memory and the GC counter; every call made once the
count has reached `N` returns the `Allocation` error whose reported
`count = limit + 1 > limit` while leaving the tracker (all counters)
unchanged; and an `Allocation` resource error is not catchable by guest
code.  In particular a run making more than `N` heap allocations, such as
a loop appending 11 values under `max_allocations = 10`, ends in
`Resource::Allocation` with `count > limit`. -/
theorem C9_allocation_limit (L : ResourceLimits) (N size : Nat)
    (hmax : L.maxAllocations = some N) (hmem : L.maxMemory = Option.none) :
    (∀ k, k ≤ N →
       iterate_on_allocate (LimitedTracker.new L) size k = ⟨L, k, k * size, k⟩) ∧
    (∀ k, k < N →
       (iterate_on_allocate (LimitedTracker.new L) size k).on_allocate (fun _ => size) =
         (Except.ok (), ⟨L, k + 1, (k + 1) * size, k + 1⟩)) ∧
    (∀ t : LimitedTracker, t.limits = L → t.allocationCount ≥ N → ∀ f,
       t.on_allocate f =
         (Except.error (ResourceError.allocation N (t.allocationCount + 1)), t) ∧
       t.allocationCount + 1 > N) ∧
    (∀ limit count,
       (RunError.resource (ResourceError.allocation limit count)).is_catchable = false) := by
  have hstep : ∀ k, k ≤ N →
      iterate_on_allocate (LimitedTracker.new L) size k = ⟨L, k, k * size, k⟩ := by
    intro k
    induction k with
    | zero => intro _; simp [iterate_on_allocate, LimitedTracker.new]
    | succ n ih =>
      intro hn
      have hlt : n < N := by omega
      unfold iterate_on_allocate
      rw [ih (by omega), on_allocate_ok_step L N size n (n * size) n hmax hmem hlt]
      simp [Nat.succ_mul]
  refine ⟨hstep, ?_, ?_, fun limit count => rfl⟩
  · intro k hk
    rw [hstep k (by omega), on_allocate_ok_step L N size k (k * size) k hmax hmem hk]
    simp [Nat.succ_mul]
  · intro t ht hge f
    have herr : t.on_allocate f =
        (Except.error (ResourceError.allocation N (t.allocationCount + 1)), t) := by
      unfold LimitedTracker.on_allocate
      rw [ht, hmax]
      simp [hge]
    exact ⟨herr, by omega⟩

/-- C9 witness: with `max_allocations = 10`, the first 10 allocations of
one byte each succeed (count, memory and GC counters reach 10), and the
11th attempt fails with `Allocation (limit 10, count 11)`, `11 > 10`,
leaving the tracker unchanged; the error is not guest-catchable. -/
theorem C9_allocation_limit_witness :
    iterate_on_allocate
        (LimitedTracker.new ⟨some 10, Option.none, Option.none, Option.none⟩) 1 10 =
      ⟨⟨some 10, Option.none, Option.none, Option.none⟩, 10, 10, 10⟩ ∧
    LimitedTracker.on_allocate
        ⟨⟨some 10, Option.none, Option.none, Option.none⟩, 10, 10, 10⟩ (fun _ => 1) =
      (Except.error (ResourceError.allocation 10 11),
       ⟨⟨some 10, Option.none, Option.none, Option.none⟩, 10, 10, 10⟩) ∧
    (RunError.resource (ResourceError.allocation 10 11)).is_catchable = false := by
  have hmain := C9_allocation_limit ⟨some 10, Option.none, Option.none, Option.none⟩ 10 1
    rfl rfl
  refine ⟨?_, ?_, hmain.2.2.2 10 11⟩
  · have h10 := hmain.1 10 (by omega)
    simpa using h10
  · have herr := (hmain.2.2.1 ⟨⟨some 10, Option.none, Option.none, Option.none⟩, 10, 10, 10⟩
      rfl (by decide) (fun _ => 1)).1
    simpa using herr

theorem inc_ref_slotData (h : Heap) (id : Nat) (h2 : Heap)
    (hi : h.inc_ref id = some h2) : ∀ j, slotData h2 j = slotData h j := by
  intro j
  unfold Heap.inc_ref at hi
  cases hg : h.objects[id]? with
  | none => rw [hg] at hi; simp at hi
  | some o =>
    cases o with
    | none => rw [hg] at hi; simp at hi
    | some e =>
      rw [hg] at hi
      simp at hi
      subst hi
      unfold slotData slotEntry
      by_cases hj : id = j
      · subst hj
        rw [List.getElem?_set, if_pos rfl,
          if_pos (by exact (List.getElem?_eq_some.mp hg).1), hg]
        rfl
      · rw [List.getElem?_set_ne hj]

theorem clone_with_heap_state (v : Value) (h : Heap) (w : Value) (h2 : Heap)
    (hc : v.clone_with_heap h = some (w, h2)) :
    h2.objects.length = h.objects.length ∧ ∀ j, slotData h2 j = slotData h j := by
  cases v <;> simp only [Value.clone_with_heap] at hc
  case ref id =>
    rw [Option.map_eq_some'] at hc
    obtain ⟨h3, hinc, heq⟩ := hc
    have hh : h3 = h2 := congrArg Prod.snd heq
    subst hh
    exact ⟨inc_ref_length h id _ hinc, inc_ref_slotData h id _ hinc⟩
  all_goals
    cases Option.some.inj hc
    exact ⟨rfl, fun j => rfl⟩

theorem cloneAll_spec (l : List Value) :
    ∀ h l2 h2, cloneAll h l = some (l2, h2) →
      l2 = l ∧ h2.objects.length = h.objects.length ∧
      ∀ j, slotData h2 j = slotData h j := by
  induction l with
  | nil =>
    intro h l2 h2 hc
    simp [cloneAll] at hc
    exact ⟨hc.1, by rw [hc.2], fun j => by rw [hc.2]⟩
  | cons v rest ih =>
    intro h l2 h2 hc
    simp only [cloneAll] at hc
    cases hcl : v.clone_with_heap h with
    | none => rw [hcl] at hc; simp at hc
    | some vh =>
      rw [hcl] at hc
      simp only [Option.some_bind] at hc
      cases hrest : cloneAll vh.2 rest with
      | none => rw [hrest] at hc; simp at hc
      | some vsh =>
        rw [hrest] at hc
        simp at hc
        obtain ⟨hl2, hh2⟩ := hc
        obtain ⟨hfst, hmid⟩ : vh.1 = v ∧ (vh.2.objects.length = h.objects.length ∧
            ∀ j, slotData vh.2 j = slotData h j) :=
          ⟨clone_with_heap_fst v h vh.1 vh.2 (by rw [hcl]),
           clone_with_heap_state v h vh.1 vh.2 (by rw [hcl])⟩
        obtain ⟨hvs, hlen, hdata⟩ := ih vh.2 vsh.1 vsh.2 (by rw [hrest])
        subst hh2
        refine ⟨by rw [← hl2, hfst, hvs], by rw [hlen, hmid.1], fun j => by
          rw [hdata j, hmid.2 j]⟩

theorem slotData_append (h : Heap) (x : Option HeapObject) (j : Nat)
    (hj : j < h.objects.length) :
    slotData ⟨h.objects ++ [x]⟩ j = slotData h j := by
  unfold slotData slotEntry
  rw [List.getElem?_append, if_pos hj]

/-- C6: `List::py_add` builds a fresh list whose elements are the elements
of `a` followed by those of `b` — so its length is `len a + len b` — at a
fresh heap id (the current slot count), leaving the payload of every
existing slot unchanged (`a` and `b` included; only refcounts move); and
`List::py_iadd` in the self-aliasing case `a += a` (the right operand is
the very id the payload was taken from) clones the source elements first
and extends, so the resulting element vector is `a ++ a`. -/
theorem C6_list_add_iadd :
    (∀ (h : Heap) (a b : List Value) (v : Value) (h2 : Heap),
       list_py_add h a b = some (v, h2) →
       v = Value.ref h.objects.length ∧
       slotEntry h2 h.objects.length =
         some ⟨1, some (.list (a ++ b)), Option.none⟩ ∧
       (a ++ b).length = a.length + b.length ∧
       h2.objects.length = h.objects.length + 1 ∧
       (∀ j, j < h.objects.length → slotData h2 j = slotData h j)) ∧
    (∀ (h : Heap) (self : List Value) (i : Nat) (out : List Value) (h2 : Heap),
       list_py_iadd h self (some i) (.ref i) = some (Except.ok (out, h2)) →
       out = self ++ self) := by
  constructor
  · intro h a b v h2 hadd
    simp only [list_py_add] at hadd
    cases hc1 : cloneAll h a with
    | none => rw [hc1] at hadd; simp at hadd
    | some rh =>
      rw [hc1] at hadd
      simp only [Option.some_bind] at hadd
      cases hc2 : cloneAll rh.2 b with
      | none => rw [hc2] at hadd; simp at hadd
      | some oh =>
        rw [hc2] at hadd
        simp only [Option.map_some', Option.some.injEq] at hadd
        obtain ⟨ha2, hlen2, hdata2⟩ := cloneAll_spec a h rh.1 rh.2 (by rw [hc1])
        obtain ⟨hb2, hlenb, hdatab⟩ := cloneAll_spec b rh.2 oh.1 oh.2 (by rw [hc2])
        have hv : v = Value.ref oh.2.objects.length := (congrArg Prod.fst hadd).symm
        have hh2 : h2 = (oh.2.allocate (.list (rh.1 ++ oh.1))).1 :=
          (congrArg Prod.snd hadd).symm
        have hlh : oh.2.objects.length = h.objects.length := by rw [hlenb, hlen2]
        subst hh2
        refine ⟨by rw [hv, hlh], ?_, by simp, ?_, ?_⟩
        · unfold slotEntry
          simp only [Heap.allocate]
          rw [← hlh, List.getElem?_concat_length, ha2, hb2]
          rfl
        · simp [Heap.allocate, hlh]
        · intro j hj
          simp only [Heap.allocate]
          rw [slotData_append _ _ j (by rw [hlh]; exact hj)]
          rw [hdatab j, hdata2 j]
  · intro h self i out h2 hiadd
    simp only [list_py_iadd, if_pos rfl] at hiadd
    cases hc : cloneAll h self with
    | none => rw [hc] at hiadd; simp at hiadd
    | some rh =>
      rw [hc] at hiadd
      simp only [Option.some_bind] at hiadd
      cases hd : Value.drop_with_heap (.ref i) rh.2 with
      | none => rw [hd] at hiadd; simp at hiadd
      | some h3 =>
        rw [hd] at hiadd
        simp at hiadd
        obtain ⟨hself2, -, -⟩ := cloneAll_spec self h rh.1 rh.2 (by rw [hc])
        rw [← hiadd.1, hself2]

/-- C6 witness: on the empty heap, `[] + [1]` allocates the fresh list
`[1]` at id 0; and `a += a` on the one-element list `[1]` stored at slot 0
(with the temporary reference as right operand) produces the element
vector `[1, 1]`. -/
theorem C6_list_add_iadd_witness :
    slotEntry ⟨[some ⟨1, some (HeapData.list ([] ++ [Value.int 1])), Option.none⟩]⟩ 0 =
      some ⟨1, some (.list ([] ++ [Value.int 1])), Option.none⟩ ∧
    [Value.int 1, Value.int 1] = [Value.int 1] ++ [Value.int 1] := by
  constructor
  · exact (C6_list_add_iadd.1 ⟨[]⟩ [] [Value.int 1] (Value.ref 0)
      ⟨[some ⟨1, some (.list ([] ++ [Value.int 1])), Option.none⟩]⟩ rfl).2.1
  · have hdec : Heap.dec_ref ⟨[some ⟨2, some (.list [Value.int 1]), Option.none⟩]⟩ 0 =
        some ⟨[some ⟨1, some (.list [Value.int 1]), Option.none⟩]⟩ := by
      unfold Heap.dec_ref
      rw [decRefLoop_cons_dec ⟨[some ⟨2, some (.list [Value.int 1]), Option.none⟩]⟩ 0 []
        ⟨2, some (.list [Value.int 1]), Option.none⟩ rfl (by decide)]
      simp [decRefLoop_nil]
    have hrun : list_py_iadd ⟨[some ⟨2, some (.list [Value.int 1]), Option.none⟩]⟩
        [Value.int 1] (some 0) (.ref 0) =
        some (Except.ok ([Value.int 1, Value.int 1],
          ⟨[some ⟨1, some (.list [Value.int 1]), Option.none⟩]⟩)) := by
      simp [list_py_iadd, cloneAll, Value.clone_with_heap, Value.drop_with_heap, hdec]
    exact C6_list_add_iadd.2 ⟨[some ⟨2, some (.list [Value.int 1]), Option.none⟩]⟩
      [Value.int 1] 0 [Value.int 1, Value.int 1]
      ⟨[some ⟨1, some (.list [Value.int 1]), Option.none⟩]⟩ hrun

/-- C10: when both ids passed to `with_two` name the same live slot whose
payload is present, (i) a nested take of that slot while it is taken hits
the borrow panic (the `data already borrowed` expect) — which is exactly
what `with_two` avoids by taking the payload once and passing it as both
operands; (ii) `with_two id id f` succeeds, runs `f` on the taken-out heap
with the same payload as both operands, and restores the payload; and
(iii) when `f` leaves the (payload-absent) entry as it found it, the
slot's payload, refcount and cached hash are all unchanged after the
call. -/
theorem C10_with_two_same_slot {R : Type} (h : Heap) (id : Nat) (e : HeapObject)
    (d : HeapData) (f : Heap → HeapData → HeapData → Heap × R)
    (hslot : h.objects[id]? = some (some e)) (hdata : e.data = some d) :
    (Heap.take_data ⟨h.objects.set id (some { e with data := Option.none })⟩ id =
       Option.none) ∧
    (∀ h2 r e2, f ⟨h.objects.set id (some { e with data := Option.none })⟩ d d = (h2, r) →
       h2.objects[id]? = some (some e2) →
       h.with_two id id f = some (⟨h2.objects.set id (some { e2 with data := some d })⟩, r)) ∧
    (∀ h2 r, f ⟨h.objects.set id (some { e with data := Option.none })⟩ d d = (h2, r) →
       h2.objects[id]? = some (some { e with data := Option.none }) →
       h.with_two id id f =
         some (⟨h2.objects.set id (some e)⟩, r) ∧
       slotEntry ⟨h2.objects.set id (some e)⟩ id = some e) := by
  have hlt : id < h.objects.length := (List.getElem?_eq_some.mp hslot).1
  have htake : h.take_data id =
      some (d, ⟨h.objects.set id (some { e with data := Option.none })⟩) := by
    unfold Heap.take_data
    rw [hslot]
    simp [hdata]
  refine ⟨?_, ?_, ?_⟩
  · unfold Heap.take_data
    rw [List.getElem?_set, if_pos rfl, if_pos hlt]
  · intro h2 r e2 hf hlive
    unfold Heap.with_two
    rw [if_pos rfl, htake]
    simp only [Option.some_bind, hf]
    unfold Heap.restore_data
    rw [hlive]
    rfl
  · intro h2 r hf hlive
    have he : ({ refcount := e.refcount, data := some d, cachedHash := e.cachedHash } :
        HeapObject) = e := by
      cases e
      simp at hdata
      rw [hdata]
    constructor
    · unfold Heap.with_two
      rw [if_pos rfl, htake]
      simp only [Option.some_bind, hf]
      unfold Heap.restore_data
      rw [hlive]
      simp [he]
    · have hlt2 : id < h2.objects.length := (List.getElem?_eq_some.mp hlive).1
      unfold slotEntry
      rw [List.getElem?_set, if_pos rfl, if_pos hlt2]

/-- C10 witness: a one-slot heap holding the list `[1]`; the closure
receives the same payload as both operands (it returns the pair of its
operands) and leaves the entry untouched, and `with_two 0 0` returns with
the slot exactly as before. -/
theorem C10_with_two_same_slot_witness :
    Heap.with_two ⟨[some ⟨1, some (HeapData.list [Value.int 1]), Option.none⟩]⟩ 0 0
        (fun hh a b => (hh, (a, b))) =
      some
        (⟨[some ⟨1, Option.none, Option.none⟩].set 0
            (some ⟨1, some (HeapData.list [Value.int 1]), Option.none⟩)⟩,
         (HeapData.list [Value.int 1], HeapData.list [Value.int 1])) :=
  ((C10_with_two_same_slot
    ⟨[some ⟨1, some (HeapData.list [Value.int 1]), Option.none⟩]⟩ 0
    ⟨1, some (HeapData.list [Value.int 1]), Option.none⟩
    (HeapData.list [Value.int 1]) (fun hh a b => (hh, (a, b))) rfl rfl).2.2
    ⟨[some ⟨1, Option.none, Option.none⟩]⟩
    (HeapData.list [Value.int 1], HeapData.list [Value.int 1]) rfl rfl).1

theorem cyclic_list_repr_diverges :
    ∀ fuel, value_py_repr fuel
      ⟨[some ⟨2, some (.list [Value.ref 0]), Option.none⟩]⟩ (Value.ref 0) =
      ReprResult.outOfFuel := by
  intro fuel
  induction fuel with
  | zero => rw [value_py_repr.eq_def]
  | succ n ih =>
    rw [value_py_repr.eq_def]
    simp only [List.getElem?_cons_zero]
    rw [repr_sequence.eq_def, repr_items.eq_def]
    simp [ih]

theorem cyclic_dict_repr_diverges :
    ∀ fuel, value_py_repr fuel
      ⟨[some ⟨2, some (.dict [(0, [(Value.int 1, Value.ref 0)])]), Option.none⟩]⟩
      (Value.ref 0) = ReprResult.outOfFuel := by
  intro fuel
  induction fuel with
  | zero => rw [value_py_repr.eq_def]
  | succ n ih =>
    rw [value_py_repr.eq_def]
    simp only [List.getElem?_cons_zero]
    rw [dict_py_repr.eq_def]
    simp only [List.flatMap_cons, List.flatMap_nil, List.append_nil]
    rw [repr_pairs.eq_def]
    cases n with
    | zero =>
      have hkey : value_py_repr 0
          ⟨[some ⟨2, some (.dict [(0, [(Value.int 1, Value.ref 0)])]), Option.none⟩]⟩
          (Value.int 1) = ReprResult.outOfFuel := by
        rw [value_py_repr.eq_def]
      simp [hkey]
    | succ m =>
      have hkey : value_py_repr (m + 1)
          ⟨[some ⟨2, some (.dict [(0, [(Value.int 1, Value.ref 0)])]), Option.none⟩]⟩
          (Value.int 1) = ReprResult.ok (toString (1 : Int)) := by
        rw [value_py_repr.eq_def]
      simp [hkey, ih]

/-- C3 counterexample: on the concrete self-referential list (slot 0 holds
the one-element list whose element is a reference back to slot 0 — the
heap produced by `a = []; a.append(a)`), the repr recursion does not
terminate for any fuel bound: `repr` of this cyclic list never terminates,
so it neither terminates nor contains the `[...]` placeholder as the claim
states. -/
theorem C3_counterexample :
    reprTerminates ⟨[some ⟨2, some (.list [Value.ref 0]), Option.none⟩]⟩ (Value.ref 0) =
      False := by
  apply eq_false
  intro hterm
  obtain ⟨fuel, hne⟩ := hterm
  exact hne (cyclic_list_repr_diverges fuel)

/-- C3 amended: list and dict `repr` recurse into their elements through
the heap with no seen-set of heap ids and no placeholder emission: on a
self-referential list the recursion exhausts every fuel bound (it
diverges, with no output at all — in particular no `[...]`), likewise on
a self-referential dict (no `\x7b...\x7d`), while an acyclic list reprs
normally. -/
theorem C3_repr_has_no_seen_set :
    (∀ fuel, value_py_repr fuel
       ⟨[some ⟨2, some (.list [Value.ref 0]), Option.none⟩]⟩ (Value.ref 0) =
       ReprResult.outOfFuel) ∧
    (∀ fuel, value_py_repr fuel
       ⟨[some ⟨2, some (.dict [(0, [(Value.int 1, Value.ref 0)])]), Option.none⟩]⟩
       (Value.ref 0) = ReprResult.outOfFuel) ∧
    value_py_repr 2 ⟨[some ⟨1, some (.list [Value.int 1, Value.int 2]), Option.none⟩]⟩
      (Value.ref 0) = ReprResult.ok "[1, 2]" := by
  refine ⟨cyclic_list_repr_diverges, cyclic_dict_repr_diverges, ?_⟩
  have h1 : value_py_repr 1
      ⟨[some ⟨1, some (.list [Value.int 1, Value.int 2]), Option.none⟩]⟩ (Value.int 1) =
      ReprResult.ok (toString (1 : Int)) := by
    rw [value_py_repr.eq_def]
  have h2 : value_py_repr 1
      ⟨[some ⟨1, some (.list [Value.int 1, Value.int 2]), Option.none⟩]⟩ (Value.int 2) =
      ReprResult.ok (toString (2 : Int)) := by
    rw [value_py_repr.eq_def]
  rw [value_py_repr.eq_def]
  simp only [List.getElem?_cons_zero]
  rw [repr_sequence.eq_def]
  simp only [repr_items.eq_def, h1, h2]
  rfl

end Monty
